import Mathlib

/-!
Verification of the ring-topology simulation driver (`src/main.rs`).

The program builds a ring of `num_players` Processor agents, appends a
Storage agent ("Store") plus a connector from the last player into it,
posts the topology to the external simulation engine, checks it, injects
one initial "Ball" message, and dispatches on the termination criterion.

The embedding below translates the construction in `main` into Lean
definitions and models the driver control flow as a trace of engine
interactions and terminal actions.
-/

/-- Decimal digits of `n`, least significant first, with explicit fuel so the
definition is structural and kernel-evaluable. Models Rust decimal
formatting of an unsigned integer. -/
def decDigitsAux (fuel n : Nat) : List Nat :=
  match fuel with
  | 0 => []
  | fuel + 1 => if n = 0 then [] else n % 10 :: decDigitsAux fuel (n / 10)

/-- Decimal digits of `n`, least significant first (`[]` for `0`). -/
def decDigits (n : Nat) : List Nat := decDigitsAux n n

/-- Value of a least-significant-first decimal digit list. -/
def ofDecDigits (l : List Nat) : Nat := l.foldr (fun d acc => d + 10 * acc) 0

/-- The characters of the decimal rendering of `n`, most significant first.
Models Rust `format` of a `usize` (`0` renders as `"0"`). -/
def natChars (n : Nat) : List Char :=
  if n = 0 then ['0'] else ((decDigits n).reverse).map Nat.digitChar

/-- Zero-pad the decimal rendering of `n` on the left to width 2.
Models the Rust format specifier `{:02}` used for player names. -/
def pad2Chars (n : Nat) : List Char :=
  List.replicate (2 - (natChars n).length) '0' ++ natChars n

/-- `format("player-{:02}", k)` from `main.rs`. -/
def playerName (k : Nat) : String := "player-" ++ String.mk (pad2Chars k)

/-- The exponential service-time distribution handed to every Processor,
`ContinuousRandomVariable::Exp { lambda: 0.9 }`; carried opaquely. -/
inductive ContinuousRandomVariable where
  | Exp (lambda : Rat)
deriving DecidableEq

/-- The behavioral parameter of an engine model, as constructed in `main.rs`:
either a Processor (with service-time distribution and its in/out port names)
or a Storage (with its put/get/stored port names). The engine crate itself is
external; only the constructor arguments passed by `main.rs` are modelled. -/
inductive ModelBehavior where
  | Processor (serviceTime : ContinuousRandomVariable) (opt1 : Option Unit)
      (portIn portOut : String) (flag : Bool) (opt2 : Option Unit)
  | Storage ( putPort getPort storedPort : String) (recordsFlag : Bool)
deriving DecidableEq

/-- Modelled from the spec: the named ports an agent exposes. The spec gives
a Processor agent its receive and send ports and a Storage agent the ports
put, get, stored; `main.rs` passes exactly these port names to the
constructors. -/
def ModelBehavior.ports : ModelBehavior → List String
  | .Processor _ _ pin pout _ _ => [pin, pout]
  | .Storage p g s _ => [p, g, s]

/-- `sim::Model`: a named agent wrapping a behavioral parameter. -/
structure Model where
  name : String
  behavior : ModelBehavior
deriving DecidableEq

/-- The ports a model exposes. -/
def Model.ports (m : Model) : List String := m.behavior.ports

/-- `sim::Connector::new(name, source, target, source_port, target_port)`. -/
structure Connector where
  name : String
  sourceModel : String
  targetModel : String
  sourcePort : String
  targetPort : String
deriving DecidableEq

/-- `sim::Message::new(source_model, source_port, target_model, target_port,
time, content)`. The logical time is modelled as a rational. -/
structure Message where
  sourceModel : String
  sourcePort : String
  targetModel : String
  targetPort : String
  time : Rat
  content : String
deriving DecidableEq

/-- The command-line arguments of the driver (`Args` in `main.rs`). -/
structure Args where
  num_players : Nat
  end_time : Option Rat
  iterations : Option Nat
  diagram : Bool

/-- The player model built for ring index `i` with 1-based ordinal `k = i+1`:
`Model::new(format("player-{:02}", k), Processor::new(Exp 0.9, None,
"receive", "send", false, None))`. -/
def playerModel (k : Nat) : Model :=
  ⟨playerName k,
   .Processor (.Exp (9 / 10)) none "receive" "send" false none⟩

/-- The ring agents: `(0..num_players).map(|i| Model::new(...))`. -/
def buildModels (n : Nat) : List Model :=
  (List.range n).map fun i => playerModel (i + 1)

/-- Ring connector for index `i`: routes `player-(i+1)`s send port to
`player-((i+1) % n + 1)`s receive port, named `"{source} to {target}"`. -/
def ringConnector (n i : Nat) : Connector :=
  let current := i + 1
  let next := (i + 1) % n + 1
  ⟨playerName current ++ " to " ++ playerName next,
   playerName current, playerName next, "send", "receive"⟩

/-- The ring connectors: `(0..num_players).map(|i| Connector::new(...))`. -/
def ringConnectors (n : Nat) : List Connector :=
  (List.range n).map fun i => ringConnector n i

/-- The Storage instrumentation agent pushed unconditionally by `main.rs`:
`Model::new("Store", Storage::new("put", "get", "stored", true))`. -/
def storeModel : Model := ⟨"Store", .Storage "put" "get" "stored" true⟩

/-- The instrumentation connector pushed unconditionally by `main.rs`:
from `player-{num_players:02}`s send port to the Store put port. -/
def storeConnector (n : Nat) : Connector :=
  ⟨playerName n ++ " to " ++ "Store", playerName n, "Store", "send", "put"⟩

/-- The full agent list posted to the engine: ring agents then the Store. -/
def descModels (n : Nat) : List Model := buildModels n ++ [storeModel]

/-- The full connector list posted to the engine: ring connectors then the
Store connector. -/
def descConnectors (n : Nat) : List Connector :=
  ringConnectors n ++ [storeConnector n]

/-- The single initial message injected by `main.rs`: a "Ball" delivered to
the receive port of `player-01` at logical time 0. -/
def ballMessage : Message :=
  ⟨"manual", "manual", "player-01", "receive", 0, "Ball"⟩

/-- One engine interaction or terminal action of the driver. -/
inductive Event where
  | post (models : List Model) (connectors : List Connector)
  | check
  | logError (msg : String)
  | exitCode (code : Nat)
  | emitDiagram
  | injectInput (m : Message)
  | stepUntil (endTime : Rat)
  | stepN (count : Nat)
  | panicCall (msg : String)
  | printRoundTrip
deriving DecidableEq

/-- Events following a stepping call: on `Ok` the driver prints the
round-trip count; on `Err` the `unwrap` panics. -/
def afterStep : Except String (List Message) → List Event
  | .ok _ => [.printRoundTrip]
  | .error e => [.panicCall e]

/-- The dispatch on `(end_time, iterations)` at the end of `main`:
an end time takes the first match arm, otherwise an iteration count the
second, otherwise the driver panics. -/
def dispatchEvents (a : Args) (stepResult : Except String (List Message)) :
    List Event :=
  match a.end_time, a.iterations with
  | some t, _ => .stepUntil t :: afterStep stepResult
  | none, some k => .stepN k :: afterStep stepResult
  | none, none =>
      [.panicCall "must provide either \x27end_time\x27 or \x27iterations\x27."]

/-- The sequence of engine interactions and terminal actions performed by
`main`, parametrized by the outcome the external engine gives to `check`
and to the stepping call. -/
def mainTrace (a : Args) (checkOutcome : Except String Unit)
    (stepResult : Except String (List Message)) : List Event :=
  .post (descModels a.num_players) (descConnectors a.num_players) ::
  .check ::
  match checkOutcome with
  | .ok _ =>
      if a.diagram then [.emitDiagram]
      else .injectInput ballMessage :: dispatchEvents a stepResult
  | .error msg => [.logError msg, .exitCode 1]

/-- The messages injected into the engine along a trace, in order. -/
def injectedMessages (tr : List Event) : List Message :=
  tr.filterMap fun e =>
    match e with
    | .injectInput m => some m
    | _ => none

/-- The stepping calls along a trace, in order. -/
def stepCalls (tr : List Event) : List Event :=
  tr.filter fun e =>
    match e with
    | .stepUntil _ => true
    | .stepN _ => true
    | _ => false

/-- The fatal events along a trace (error logs, process exits, panics). -/
def fatalEvents (tr : List Event) : List Event :=
  tr.filter fun e =>
    match e with
    | .logError _ => true
    | .exitCode _ => true
    | .panicCall _ => true
    | _ => false

/-- A connector resolves in an agent list when its source and target name
existing agents and ports those agents expose. -/
def connectorResolves (ms : List Model) (c : Connector) : Prop :=
  (∃ m ∈ ms, m.name = c.sourceModel ∧ c.sourcePort ∈ m.ports) ∧
  (∃ m ∈ ms, m.name = c.targetModel ∧ c.targetPort ∈ m.ports)

instance (ms : List Model) (c : Connector) :
    Decidable (connectorResolves ms c) := by
  unfold connectorResolves; infer_instance

/-- Well-formedness of a posted topology: every connector resolves and
connector names are pairwise distinct. -/
def descriptorWellFormed (ms : List Model) (cs : List Connector) : Prop :=
  (∀ c ∈ cs, connectorResolves ms c) ∧ (cs.map Connector.name).Nodup

instance (ms : List Model) (cs : List Connector) :
    Decidable (descriptorWellFormed ms cs) := by
  unfold descriptorWellFormed; infer_instance

/-- The ring shape asserted of `build_ring(n)`: `n` agents, `n` connectors,
agent `i` named by the 1-indexed zero-padded ordinal, connector `i` routing
agent `i`s send port to agent `(i+1) mod n`s receive port, each agent the
source of exactly one connector and the target of exactly one, and the
successor map `i ↦ (i+1) mod n` tracing one cycle through all `n` agents. -/
def RingTopologySpec (n : Nat) : Prop :=
  (buildModels n).length = n ∧
  (ringConnectors n).length = n ∧
  (∀ i, i < n → (buildModels n)[i]? = some (playerModel (i + 1))) ∧
  (∀ i, i < n →
    ∃ c a b, (ringConnectors n)[i]? = some c ∧
      (buildModels n)[i]? = some a ∧
      (buildModels n)[(i + 1) % n]? = some b ∧
      c.sourceModel = a.name ∧ c.sourcePort = "send" ∧
      c.targetModel = b.name ∧ c.targetPort = "receive") ∧
  (ringConnectors n).map Connector.sourceModel = (buildModels n).map Model.name ∧
  ((ringConnectors n).map Connector.targetModel).Nodup ∧
  (∀ k, k < n → (fun i => (i + 1) % n)^[k] 0 = k) ∧
  (fun i => (i + 1) % n)^[n] 0 = 0

/-- What attaching the Storage instrumentation adds to the ring descriptor:
exactly one agent (named Store, ports put/get/stored) appended after the
ring agents, and exactly one connector appended after the ring connectors,
routing the last ring agent (index `n-1`) send port to the Store put port. -/
def StorageAttachSpec (n : Nat) : Prop :=
  descModels n = buildModels n ++ [storeModel] ∧
  descConnectors n = ringConnectors n ++ [storeConnector n] ∧
  storeModel.name = "Store" ∧
  storeModel.ports = ["put", "get", "stored"] ∧
  (∃ lastAgent, (buildModels n)[n - 1]? = some lastAgent ∧
    (storeConnector n).sourceModel = lastAgent.name) ∧
  (storeConnector n).sourcePort = "send" ∧
  (storeConnector n).targetModel = storeModel.name ∧
  (storeConnector n).targetPort = "put"

/-! ### Decimal rendering lemmas -/

theorem decDigitsAux_zero (f : Nat) : decDigitsAux f 0 = [] := by
  cases f <;> simp [decDigitsAux]

theorem decDigitsAux_fuel :
    ∀ f g n : Nat, n ≤ f → n ≤ g → decDigitsAux f n = decDigitsAux g n := by
  intro f
  induction f with
  | zero =>
    intro g n hf _
    have hn : n = 0 := Nat.le_zero.mp hf
    subst hn
    rw [decDigitsAux_zero, decDigitsAux_zero]
  | succ f ih =>
    intro g n hf hg
    by_cases h0 : n = 0
    · subst h0
      rw [decDigitsAux_zero, decDigitsAux_zero]
    · obtain ⟨gp, rfl⟩ : ∃ gp, g = gp + 1 := ⟨g - 1, by omega⟩
      have hdiv : n / 10 < n := Nat.div_lt_self (Nat.pos_of_ne_zero h0) (by omega)
      simp only [decDigitsAux, if_neg h0]
      rw [ih gp (n / 10) (by omega) (by omega)]

theorem decDigits_def (n : Nat) (h : n ≠ 0) :
    decDigits n = n % 10 :: decDigits (n / 10) := by
  unfold decDigits
  obtain ⟨m, rfl⟩ : ∃ m, n = m + 1 := ⟨n - 1, by omega⟩
  have hdiv : (m + 1) / 10 < m + 1 := Nat.div_lt_self (by omega) (by omega)
  simp only [decDigitsAux, if_neg h]
  rw [decDigitsAux_fuel m ((m + 1) / 10) ((m + 1) / 10) (by omega) (le_refl _)]

theorem ofDecDigits_cons (a : Nat) (l : List Nat) :
    ofDecDigits (a :: l) = a + 10 * ofDecDigits l := rfl

theorem ofDecDigits_decDigits : ∀ n, ofDecDigits (decDigits n) = n := by
  intro n
  induction n using Nat.strong_induction_on with
  | _ n ih =>
    by_cases h0 : n = 0
    · subst h0; rfl
    · have hdiv : n / 10 < n := Nat.div_lt_self (Nat.pos_of_ne_zero h0) (by omega)
      rw [decDigits_def n h0, ofDecDigits_cons, ih (n / 10) hdiv]
      exact Nat.mod_add_div n 10

theorem decDigits_injective (a b : Nat) (h : decDigits a = decDigits b) : a = b := by
  rw [← ofDecDigits_decDigits a, ← ofDecDigits_decDigits b, h]

theorem decDigits_lt_ten : ∀ n, ∀ d ∈ decDigits n, d < 10 := by
  intro n
  induction n using Nat.strong_induction_on with
  | _ n ih =>
    by_cases h0 : n = 0
    · subst h0; intro d hd; simp [decDigits, decDigitsAux] at hd
    · rw [decDigits_def n h0]
      intro d hd
      rcases List.mem_cons.mp hd with h | h
      · subst h; exact Nat.mod_lt _ (by omega)
      · exact ih (n / 10) (Nat.div_lt_self (Nat.pos_of_ne_zero h0) (by omega)) d h

theorem decDigits_small (n : Nat) (h1 : n ≠ 0) (h2 : n < 10) : decDigits n = [n] := by
  rw [decDigits_def n h1, Nat.mod_eq_of_lt h2, Nat.div_eq_of_lt h2]
  rfl

theorem decDigits_concat : ∀ n, n ≠ 0 → ∃ l d, decDigits n = l ++ [d] ∧ d ≠ 0 ∧ d < 10 := by
  intro n
  induction n using Nat.strong_induction_on with
  | _ n ih =>
    intro h0
    by_cases hs : n < 10
    · exact ⟨[], n, by rw [decDigits_small n h0 hs]; rfl, h0, hs⟩
    · have h10 : n / 10 ≠ 0 := by
        have := Nat.div_pos (by omega : 10 ≤ n) (by omega : 0 < 10)
        omega
      have hdiv : n / 10 < n := Nat.div_lt_self (Nat.pos_of_ne_zero h0) (by omega)
      obtain ⟨l, d, hld, hd0, hd10⟩ := ih (n / 10) hdiv h10
      exact ⟨n % 10 :: l, d, by rw [decDigits_def n h0, hld]; rfl, hd0, hd10⟩

theorem decDigits_length_ge_two (n : Nat) (h : 10 ≤ n) : 2 ≤ (decDigits n).length := by
  have h10 : n / 10 ≠ 0 := by
    have := Nat.div_pos (by omega : 10 ≤ n) (by omega : 0 < 10)
    omega
  rw [decDigits_def n (by omega), decDigits_def (n / 10) h10]
  simp [List.length_cons]

/-! ### Digit character facts -/

theorem digitChar_inj_lt : ∀ x < 10, ∀ y < 10, Nat.digitChar x = Nat.digitChar y → x = y := by
  decide

theorem digitChar_eq_zero : ∀ d < 10, Nat.digitChar d = '0' → d = 0 := by decide

theorem digitChar_ne_space : ∀ d < 10, Nat.digitChar d ≠ ' ' := by decide

theorem map_digitChar_inj :
    ∀ l₁ l₂ : List Nat, (∀ d ∈ l₁, d < 10) → (∀ d ∈ l₂, d < 10) →
      l₁.map Nat.digitChar = l₂.map Nat.digitChar → l₁ = l₂ := by
  intro l₁
  induction l₁ with
  | nil =>
    intro l₂ _ _ h
    cases l₂ with
    | nil => rfl
    | cons b t => simp at h
  | cons a t ih =>
    intro l₂ h1 h2 h
    cases l₂ with
    | nil => simp at h
    | cons b t2 =>
      simp only [List.map_cons, List.cons.injEq] at h
      have hab := digitChar_inj_lt a (h1 a (by simp)) b (h2 b (by simp)) h.1
      rw [hab, ih t2 (fun d hd => h1 d (by simp [hd])) (fun d hd => h2 d (by simp [hd])) h.2]

/-! ### Name formatting lemmas -/

theorem natChars_small (n : Nat) (h : n < 10) : natChars n = [Nat.digitChar n] := by
  by_cases h0 : n = 0
  · subst h0; rfl
  · unfold natChars
    rw [if_neg h0, decDigits_small n h0 h]
    rfl

theorem natChars_length (n : Nat) (h : n ≠ 0) :
    (natChars n).length = (decDigits n).length := by
  unfold natChars
  rw [if_neg h]
  simp

theorem natChars_head_large (n : Nat) (h : 10 ≤ n) :
    ∃ d rest, natChars n = Nat.digitChar d :: rest ∧ d ≠ 0 ∧ d < 10 := by
  obtain ⟨l, d, hld, hd0, hd10⟩ := decDigits_concat n (by omega)
  refine ⟨d, l.reverse.map Nat.digitChar, ?_, hd0, hd10⟩
  unfold natChars
  rw [if_neg (by omega : n ≠ 0), hld]
  simp

theorem pad2Chars_small (n : Nat) (h : n < 10) :
    pad2Chars n = ['0', Nat.digitChar n] := by
  unfold pad2Chars
  rw [natChars_small n h]
  rfl

theorem pad2Chars_large (n : Nat) (h : 10 ≤ n) : pad2Chars n = natChars n := by
  unfold pad2Chars
  have hl : 2 ≤ (natChars n).length := by
    rw [natChars_length n (by omega)]
    exact decDigits_length_ge_two n h
  have h2 : 2 - (natChars n).length = 0 := by omega
  rw [h2]
  rfl

theorem pad2Chars_injective : ∀ a b : Nat, pad2Chars a = pad2Chars b → a = b := by
  have key : ∀ a b : Nat, a < 10 → 10 ≤ b → pad2Chars a ≠ pad2Chars b := by
    intro a b ha hb h
    obtain ⟨d, rest, hr, hd0, hd10⟩ := natChars_head_large b hb
    rw [pad2Chars_small a ha, pad2Chars_large b hb, hr] at h
    have hhead : '0' = Nat.digitChar d := (List.cons.injEq _ _ _ _ ▸ h).1
    exact hd0 (digitChar_eq_zero d hd10 hhead.symm)
  intro a b h
  by_cases ha : a < 10 <;> by_cases hb : b < 10
  · rw [pad2Chars_small a ha, pad2Chars_small b hb] at h
    have := (List.cons.injEq _ _ _ _ ▸ h).2
    have hd := (List.cons.injEq _ _ _ _ ▸ this).1
    exact digitChar_inj_lt a ha b hb hd
  · exact absurd h (key a b ha (by omega))
  · exact absurd h.symm (key b a hb (by omega))
  · rw [pad2Chars_large a (by omega), pad2Chars_large b (by omega)] at h
    unfold natChars at h
    rw [if_neg (by omega : a ≠ 0), if_neg (by omega : b ≠ 0)] at h
    have hrev := map_digitChar_inj _ _
      (fun d hd => decDigits_lt_ten a d (List.mem_reverse.mp hd))
      (fun d hd => decDigits_lt_ten b d (List.mem_reverse.mp hd)) h
    exact decDigits_injective a b (List.reverse_injective hrev)

theorem mem_pad2Chars_digit (n : Nat) :
    ∀ c ∈ pad2Chars n, ∃ d, d < 10 ∧ c = Nat.digitChar d := by
  intro c hc
  unfold pad2Chars at hc
  rcases List.mem_append.mp hc with h | h
  · exact ⟨0, by omega, List.eq_of_mem_replicate h⟩
  · unfold natChars at h
    by_cases h0 : n = 0
    · rw [if_pos h0] at h
      simp at h
      exact ⟨0, by omega, h⟩
    · rw [if_neg h0] at h
      obtain ⟨d, hd, hdc⟩ := List.mem_map.mp h
      exact ⟨d, decDigits_lt_ten n d (List.mem_reverse.mp hd), hdc.symm⟩

theorem pad2Chars_ne_space (n : Nat) : ∀ c ∈ pad2Chars n, c ≠ ' ' := by
  intro c hc
  obtain ⟨d, hd, rfl⟩ := mem_pad2Chars_digit n c hc
  exact digitChar_ne_space d hd

theorem playerName_data (k : Nat) :
    (playerName k).data =
      'p' :: 'l' :: 'a' :: 'y' :: 'e' :: 'r' :: '-' :: pad2Chars k := by
  unfold playerName
  rw [String.data_append]
  rfl

theorem playerName_injective : ∀ a b : Nat, playerName a = playerName b → a = b := by
  intro a b h
  have hd := congrArg String.data h
  rw [playerName_data, playerName_data] at hd
  simp only [List.cons.injEq, true_and] at hd
  exact pad2Chars_injective a b hd

theorem playerName_ne_store (k : Nat) : playerName k ≠ "Store" := by
  intro h
  have hd := congrArg String.data h
  rw [playerName_data] at hd
  have hh := congrArg List.head? hd
  simp at hh

/-! ### Connector name lemmas -/

theorem connName_data (s t : String) :
    (s ++ " to " ++ t).data = s.data ++ ' ' :: 't' :: 'o' :: ' ' :: t.data := by
  rw [String.data_append, String.data_append, List.append_assoc]
  rfl

theorem append_space_inj :
    ∀ A₁ A₂ r₁ r₂ : List Char, (∀ c ∈ A₁, c ≠ ' ') → (∀ c ∈ A₂, c ≠ ' ') →
      A₁ ++ ' ' :: r₁ = A₂ ++ ' ' :: r₂ → A₁ = A₂ ∧ r₁ = r₂ := by
  intro A₁
  induction A₁ with
  | nil =>
    intro A₂ r₁ r₂ _ h2 h
    cases A₂ with
    | nil => simpa using h
    | cons b t =>
      simp only [List.nil_append, List.cons_append, List.cons.injEq] at h
      exact absurd h.1.symm (h2 b (by simp))
  | cons a t ih =>
    intro A₂ r₁ r₂ h1 h2 h
    cases A₂ with
    | nil =>
      simp only [List.nil_append, List.cons_append, List.cons.injEq] at h
      exact absurd h.1 (h1 a (by simp))
    | cons b t2 =>
      simp only [List.cons_append, List.cons.injEq] at h
      obtain ⟨h3, h4⟩ := ih t2 r₁ r₂ (fun c hc => h1 c (by simp [hc]))
        (fun c hc => h2 c (by simp [hc])) h.2
      exact ⟨by rw [h.1, h3], h4⟩

theorem connName_inj (a b : Nat) (ta tb : String)
    (h : playerName a ++ " to " ++ ta = playerName b ++ " to " ++ tb) :
    a = b ∧ ta = tb := by
  have hd := congrArg String.data h
  rw [connName_data, connName_data, playerName_data, playerName_data] at hd
  simp only [List.cons_append, List.cons.injEq, true_and] at hd
  obtain ⟨h1, h2⟩ := append_space_inj _ _ _ _ (pad2Chars_ne_space a)
    (pad2Chars_ne_space b) hd
  simp only [List.cons.injEq, true_and] at h2
  exact ⟨pad2Chars_injective a b h1, String.ext h2⟩

/-! ### Descriptor-level uniqueness -/

theorem descModels_names (n : Nat) :
    (descModels n).map Model.name =
      ((List.range n).map fun i => playerName (i + 1)) ++ ["Store"] := by
  simp [descModels, buildModels, storeModel, List.map_map]
  intro a _
  rfl

theorem descModels_names_nodup (n : Nat) :
    ((descModels n).map Model.name).Nodup := by
  rw [descModels_names, List.nodup_append]
  refine ⟨?_, List.nodup_singleton _, ?_⟩
  · refine List.Nodup.map_on ?_ (List.nodup_range n)
    intro x _ y _ h
    have := playerName_injective (x + 1) (y + 1) h
    omega
  · intro a ha hb
    simp only [List.mem_singleton] at hb
    subst hb
    obtain ⟨i, _, hi⟩ := List.mem_map.mp ha
    exact playerName_ne_store (i + 1) hi

theorem descConnectors_names (n : Nat) :
    (descConnectors n).map Connector.name =
      ((List.range n).map fun i =>
        playerName (i + 1) ++ " to " ++ playerName ((i + 1) % n + 1)) ++
      [playerName n ++ " to " ++ "Store"] := by
  simp [descConnectors, ringConnectors, ringConnector, storeConnector,
    List.map_map]

theorem descConnectors_names_nodup (n : Nat) :
    ((descConnectors n).map Connector.name).Nodup := by
  rw [descConnectors_names, List.nodup_append]
  refine ⟨?_, List.nodup_singleton _, ?_⟩
  · refine List.Nodup.map_on ?_ (List.nodup_range n)
    intro x _ y _ h
    have := (connName_inj (x + 1) (y + 1) _ _ h).1
    omega
  · intro a ha hb
    simp only [List.mem_singleton] at hb
    subst hb
    obtain ⟨i, _, hi⟩ := List.mem_map.mp ha
    exact playerName_ne_store ((i + 1) % n + 1) (connName_inj (i + 1) n _ _ hi).2

/-! ### Modular successor lemmas -/

theorem succ_mod_inj (n i j : Nat) (hi : i < n) (hj : j < n)
    (h : (i + 1) % n = (j + 1) % n) : i = j := by
  rcases Nat.lt_or_ge (i + 1) n with h1 | h1
  · rw [Nat.mod_eq_of_lt h1] at h
    rcases Nat.lt_or_ge (j + 1) n with h2 | h2
    · rw [Nat.mod_eq_of_lt h2] at h; omega
    · have hj1 : j + 1 = n := by omega
      rw [hj1, Nat.mod_self] at h; omega
  · have hi1 : i + 1 = n := by omega
    rw [hi1, Nat.mod_self] at h
    rcases Nat.lt_or_ge (j + 1) n with h2 | h2
    · rw [Nat.mod_eq_of_lt h2] at h; omega
    · omega

theorem ringSucc_iterate (n : Nat) (hn : 2 ≤ n) :
    ∀ k, k ≤ n → (fun i => (i + 1) % n)^[k] 0 = k % n := by
  intro k
  induction k with
  | zero => intro _; simp [Nat.zero_mod]
  | succ k ih =>
    intro hk
    rw [Function.iterate_succ_apply', ih (by omega)]
    show (k % n + 1) % n = (k + 1) % n
    conv_rhs => rw [Nat.add_mod]
    rw [Nat.mod_eq_of_lt (show 1 < n by omega)]

theorem playerModel_mem_buildModels (n k : Nat) (h1 : 1 ≤ k) (h2 : k ≤ n) :
    playerModel k ∈ buildModels n := by
  refine List.mem_map.mpr ⟨k - 1, List.mem_range.mpr (by omega), ?_⟩
  rw [Nat.sub_add_cancel h1]

/-! ### Claims about the topology construction -/

/-- C1: for every participant count `n ≥ 2` the ring build yields exactly
`n` agents named by 1-indexed zero-padded ordinal and exactly `n` ring
connectors, connector `i` routing agent `i`s send port to agent
`(i+1) mod n`s receive port, and the connectors form one directed cycle
visiting each agent exactly once. -/
theorem claim_C1 (n : Nat) (hn : 2 ≤ n) : RingTopologySpec n := by
  refine ⟨by simp [buildModels], by simp [ringConnectors], ?_, ?_, ?_, ?_, ?_, ?_⟩
  · intro i hi
    simp [buildModels, List.getElem?_map, List.getElem?_range hi]
  · intro i hi
    have hmod : (i + 1) % n < n := Nat.mod_lt _ (by omega)
    refine ⟨ringConnector n i, playerModel (i + 1), playerModel ((i + 1) % n + 1),
      ?_, ?_, ?_, rfl, rfl, rfl, rfl⟩
    · simp [ringConnectors, List.getElem?_map, List.getElem?_range hi]
    · simp [buildModels, List.getElem?_map, List.getElem?_range hi]
    · simp [buildModels, List.getElem?_map, List.getElem?_range hmod]
  · simp [ringConnectors, buildModels, List.map_map]
    intro a _
    rfl
  · have hmap : (ringConnectors n).map Connector.targetModel =
        (List.range n).map fun i => playerName ((i + 1) % n + 1) := by
      simp [ringConnectors, ringConnector, List.map_map]
    rw [hmap]
    refine List.Nodup.map_on ?_ (List.nodup_range n)
    intro x hx y hy h
    have h1 := playerName_injective _ _ h
    exact succ_mod_inj n x y (List.mem_range.mp hx) (List.mem_range.mp hy) (by omega)
  · intro k hk
    rw [ringSucc_iterate n hn k (by omega), Nat.mod_eq_of_lt hk]
  · rw [ringSucc_iterate n hn n (le_refl n), Nat.mod_self]

/-- Witness for C1 at `n = 3`. -/
theorem claim_C1_witness : 2 ≤ 3 ∧ RingTopologySpec 3 :=
  ⟨by norm_num, claim_C1 3 (by norm_num)⟩

/-- C6: the ring build with participant count 1 yields exactly one agent and
one self-loop connector (its send port feeding its own receive port); with
participant count 0 it yields empty agent and connector lists. -/
theorem claim_C6 :
    buildModels 1 = [playerModel 1] ∧ (playerModel 1).name = "player-01" ∧
    ringConnectors 1 =
      [⟨"player-01 to player-01", "player-01", "player-01", "send", "receive"⟩] ∧
    buildModels 0 = [] ∧ ringConnectors 0 = [] := by
  refine ⟨rfl, by decide, by decide, rfl, rfl⟩

/-- C4 counterexample: instrumentation is not optional — there is no
participant count whose built descriptor lacks the Store agent, because
`main.rs` pushes it unconditionally. -/
theorem claim_C4_counterexample : ¬ ∃ n : Nat, storeModel ∉ descModels n := by
  rintro ⟨n, hn⟩
  exact hn (by simp [descModels])

/-- C4 amended: every invocation's descriptor holds the `n` ring agents and
connectors plus the Store agent and the Store connector. -/
theorem claim_C4_amended : ∀ n : Nat,
    (descModels n).length = n + 1 ∧ storeModel ∈ descModels n ∧
    (descConnectors n).length = n + 1 ∧ storeConnector n ∈ descConnectors n := by
  intro n
  refine ⟨by simp [descModels, buildModels], by simp [descModels],
    by simp [descConnectors, ringConnectors], by simp [descConnectors]⟩

/-- C5: attaching the Storage instrumentation appends exactly one agent
(ports put, get, stored) and exactly one connector routing the last ring
agent (index `n-1`) send port to the Store put port, leaving the ring
agents and connectors unchanged as a prefix. -/
theorem claim_C5 (n : Nat) (hn : 1 ≤ n) : StorageAttachSpec n := by
  refine ⟨rfl, rfl, rfl, rfl, ⟨playerModel n, ?_, rfl⟩, rfl, rfl, rfl⟩
  have h : n - 1 < n := by omega
  simp only [buildModels, List.getElem?_map, List.getElem?_range h,
    Option.map_some']
  rw [Nat.sub_add_cancel hn]

/-- Witness for C5 at `n = 3`. -/
theorem claim_C5_witness : 1 ≤ 3 ∧ StorageAttachSpec 3 :=
  ⟨by norm_num, claim_C5 3 (by norm_num)⟩

/-- C7: for every participant count the agent names of the final descriptor
are pairwise distinct, the Store name collides with no ring agent name, and
the Store ports collide with no ring port. -/
theorem claim_C7 : ∀ n : Nat,
    ((descModels n).map Model.name).Nodup ∧
    storeModel.name ∉ (buildModels n).map Model.name ∧
    (∀ m ∈ buildModels n, ∀ p ∈ storeModel.ports, p ∉ m.ports) := by
  intro n
  refine ⟨descModels_names_nodup n, ?_, ?_⟩
  · intro h
    obtain ⟨m, hm, hname⟩ := List.mem_map.mp h
    obtain ⟨i, _, rfl⟩ := List.mem_map.mp hm
    exact playerName_ne_store (i + 1) hname
  · intro m hm p hp hpm
    obtain ⟨i, _, rfl⟩ := List.mem_map.mp hm
    simp [playerModel, Model.ports, ModelBehavior.ports, storeModel] at hp hpm
    rcases hp with rfl | rfl | rfl <;> simp_all

/-- C10: for every participant count `n ≥ 1` each connector of the final
descriptor references agents that exist and ports they expose, and the
connector names are pairwise distinct; for `n = 0` this fails because the
Store connector's source names the non-existent agent player-00. -/
theorem claim_C10 :
    (∀ n, 1 ≤ n → descriptorWellFormed (descModels n) (descConnectors n)) ∧
    (storeConnector 0).sourceModel = "player-00" ∧
    (∀ m ∈ descModels 0, m.name ≠ "player-00") := by
  refine ⟨?_, by decide, by decide⟩
  intro n hn
  refine ⟨?_, descConnectors_names_nodup n⟩
  intro c hc
  rcases List.mem_append.mp hc with h | h
  · obtain ⟨i, hir, rfl⟩ := List.mem_map.mp h
    have hi := List.mem_range.mp hir
    have hmod : (i + 1) % n < n := Nat.mod_lt _ (by omega)
    constructor
    · refine ⟨playerModel (i + 1), ?_, rfl, ?_⟩
      · exact List.mem_append_left _
          (playerModel_mem_buildModels n (i + 1) (by omega) (by omega))
      · simp [playerModel, Model.ports, ModelBehavior.ports, ringConnector]
    · refine ⟨playerModel ((i + 1) % n + 1), ?_, rfl, ?_⟩
      · exact List.mem_append_left _
          (playerModel_mem_buildModels n ((i + 1) % n + 1) (by omega) (by omega))
      · simp [playerModel, Model.ports, ModelBehavior.ports, ringConnector]
  · simp only [List.mem_singleton] at h
    subst h
    constructor
    · refine ⟨playerModel n, ?_, rfl, ?_⟩
      · exact List.mem_append_left _ (playerModel_mem_buildModels n n hn (le_refl n))
      · simp [playerModel, Model.ports, ModelBehavior.ports, storeConnector]
    · refine ⟨storeModel, ?_, rfl, ?_⟩
      · simp [descModels]
      · simp [storeModel, Model.ports, ModelBehavior.ports, storeConnector]

/-- Witness for C10: the descriptor for two players is well-formed. -/
theorem claim_C10_witness :
    descriptorWellFormed (descModels 2) (descConnectors 2) :=
  claim_C10.1 2 (by norm_num)

/-! ### Claims about the driver control flow -/

theorem injectedMessages_dispatch (a : Args) (r : Except String (List Message)) :
    injectedMessages (dispatchEvents a r) = [] := by
  cases he : a.end_time <;> cases hi : a.iterations <;> cases r <;>
    simp [dispatchEvents, afterStep, injectedMessages, he, hi]

/-- C8: when the engine check fails, the driver logs the message, exits with
status 1, and performs no injection and no stepping. -/
theorem claim_C8 (a : Args) (r : Except String (List Message)) (msg : String) :
    mainTrace a (.error msg) r =
      [.post (descModels a.num_players) (descConnectors a.num_players), .check,
       .logError msg, .exitCode 1] ∧
    injectedMessages (mainTrace a (.error msg) r) = [] ∧
    stepCalls (mainTrace a (.error msg) r) = [] ∧
    Event.exitCode 1 ∈ mainTrace a (.error msg) r := by
  refine ⟨rfl, rfl, rfl, ?_⟩
  show Event.exitCode 1 ∈ mainTrace a (.error msg) r
  rw [show mainTrace a (.error msg) r =
      [.post (descModels a.num_players) (descConnectors a.num_players), .check,
       .logError msg, .exitCode 1] from rfl]
  simp

/-- Witness for C8 at a concrete failing check. -/
theorem claim_C8_witness :
    mainTrace ⟨2, some 100, none, false⟩ (.error "bad topology") (.ok []) =
      [.post (descModels 2) (descConnectors 2), .check,
       .logError "bad topology", .exitCode 1] :=
  (claim_C8 ⟨2, some 100, none, false⟩ (.ok []) "bad topology").1

/-- C9: in a run (non-diagram mode, check passed) exactly one message is
injected — the Ball to the first ring agent's receive port at logical time
zero — and every injection happens before any stepping call. -/
theorem claim_C9 (a : Args) (r : Except String (List Message))
    (hd : a.diagram = false) (hn : 1 ≤ a.num_players) :
    mainTrace a (.ok ()) r =
      [.post (descModels a.num_players) (descConnectors a.num_players), .check,
       .injectInput ballMessage] ++ dispatchEvents a r ∧
    injectedMessages (mainTrace a (.ok ()) r) = [ballMessage] ∧
    injectedMessages (dispatchEvents a r) = [] ∧
    stepCalls [Event.post (descModels a.num_players) (descConnectors a.num_players),
      Event.check, Event.injectInput ballMessage] = [] ∧
    ((buildModels a.num_players)[0]?).map Model.name = some ballMessage.targetModel ∧
    ballMessage.targetPort = "receive" ∧ ballMessage.time = 0 := by
  have h1 : mainTrace a (.ok ()) r =
      [.post (descModels a.num_players) (descConnectors a.num_players), .check,
       .injectInput ballMessage] ++ dispatchEvents a r := by
    simp [mainTrace, hd]
  refine ⟨h1, ?_, injectedMessages_dispatch a r, rfl, ?_, rfl, rfl⟩
  · have h2 : injectedMessages
        ([Event.post (descModels a.num_players) (descConnectors a.num_players),
          Event.check, Event.injectInput ballMessage] ++ dispatchEvents a r) =
        injectedMessages
          [Event.post (descModels a.num_players) (descConnectors a.num_players),
           Event.check, Event.injectInput ballMessage] ++
        injectedMessages (dispatchEvents a r) :=
      List.filterMap_append _ _ _
    rw [h1, h2, injectedMessages_dispatch a r]
    rfl
  · have h0 : 0 < a.num_players := hn
    simp only [buildModels, List.getElem?_map, List.getElem?_range h0,
      Option.map_some']
    show some (playerName 1) = some "player-01"
    decide

/-- Witness for C9 at two players with an end time. -/
theorem claim_C9_witness :
    ((⟨2, some 100, none, false⟩ : Args).diagram = false) ∧
    (1 ≤ (⟨2, some 100, none, false⟩ : Args).num_players) ∧
    injectedMessages (mainTrace ⟨2, some 100, none, false⟩ (.ok ()) (.ok [])) =
      [ballMessage] :=
  ⟨rfl, by norm_num,
    (claim_C9 ⟨2, some 100, none, false⟩ (.ok []) rfl (by norm_num)).2.1⟩

/-- C2 counterexample: when both an end time and an iteration count are
supplied, the driver does not fail — it steps to the end time (the first
match arm) and the trace contains no fatal event at all. -/
theorem claim_C2_counterexample :
    stepCalls (mainTrace ⟨2, some 100, some 5, false⟩ (.ok ()) (.ok [])) =
      [Event.stepUntil 100] ∧
    fatalEvents (mainTrace ⟨2, some 100, some 5, false⟩ (.ok ()) (.ok [])) = [] := by
  exact ⟨rfl, rfl⟩

/-- C2 amended: when neither an end time nor an iteration count is resolved
the driver fails fatally with a descriptive panic at the dispatch point —
after post, check and the initial injection but before any stepping call —
and never guesses a default; when an end time is supplied it takes
precedence regardless of the iteration count, and no failure occurs. -/
theorem claim_C2_amended (a : Args) (r : Except String (List Message))
    (hd : a.diagram = false) (he : a.end_time = none) (hi : a.iterations = none) :
    mainTrace a (.ok ()) r =
      [.post (descModels a.num_players) (descConnectors a.num_players), .check,
       .injectInput ballMessage,
       .panicCall "must provide either \x27end_time\x27 or \x27iterations\x27."] ∧
    stepCalls (mainTrace a (.ok ()) r) = [] ∧
    (∀ (a2 : Args) (r2 : Except String (List Message)) (t : Rat),
      a2.diagram = false → a2.end_time = some t →
      mainTrace a2 (.ok ()) r2 =
        [.post (descModels a2.num_players) (descConnectors a2.num_players), .check,
         .injectInput ballMessage, .stepUntil t] ++ afterStep r2) := by
  have h1 : mainTrace a (.ok ()) r =
      [.post (descModels a.num_players) (descConnectors a.num_players), .check,
       .injectInput ballMessage,
       .panicCall "must provide either \x27end_time\x27 or \x27iterations\x27."] := by
    simp [mainTrace, hd, dispatchEvents, he, hi]
  refine ⟨h1, by rw [h1]; rfl, ?_⟩
  intro a2 r2 t hd2 he2
  simp [mainTrace, hd2, dispatchEvents, he2]

/-- Witness for the amended C2 at two players with no criterion. -/
theorem claim_C2_amended_witness :
    ((⟨2, none, none, false⟩ : Args).diagram = false) ∧
    ((⟨2, none, none, false⟩ : Args).end_time = none) ∧
    ((⟨2, none, none, false⟩ : Args).iterations = none) ∧
    mainTrace ⟨2, none, none, false⟩ (.ok ()) (.ok []) =
      [.post (descModels 2) (descConnectors 2), .check,
       .injectInput ballMessage,
       .panicCall "must provide either \x27end_time\x27 or \x27iterations\x27."] :=
  ⟨rfl, rfl, rfl,
    (claim_C2_amended ⟨2, none, none, false⟩ (.ok []) rfl rfl rfl).1⟩

/-- C3 counterexample: with zero participants the Store instrumentation is
still attached (no configuration failure), and the driver still calls the
engine — check is in the trace. -/
theorem claim_C3_counterexample :
    storeModel ∈ descModels 0 ∧ storeConnector 0 ∈ descConnectors 0 ∧
    Event.check ∈ mainTrace ⟨0, some 100, none, false⟩ (.ok ()) (.ok []) := by
  refine ⟨by simp [descModels], by simp [descConnectors], ?_⟩
  rw [show mainTrace ⟨0, some 100, none, false⟩ (.ok ()) (.ok []) =
      [.post (descModels 0) (descConnectors 0), .check, .injectInput ballMessage,
       .stepUntil 100, .printRoundTrip] from rfl]
  simp

/-- C3 amended: with zero participants the Store agent and connector are
appended unconditionally, the Store connector's source names no existing
agent, and the engine calls post and check are always made — the invalid
configuration is left to the engine's own validation. -/
theorem claim_C3_amended :
    storeModel ∈ descModels 0 ∧
    (storeConnector 0).sourceModel ∉ (descModels 0).map Model.name ∧
    (∀ (a : Args) (c : Except String Unit) (r : Except String (List Message)),
      Event.post (descModels a.num_players) (descConnectors a.num_players) ∈
        mainTrace a c r ∧
      Event.check ∈ mainTrace a c r) := by
  refine ⟨by simp [descModels], by decide, ?_⟩
  intro a c r
  constructor <;> · unfold mainTrace; simp
